import Mathlib

set_option linter.unusedVariables false
set_option linter.unnecessarySeqFocus false

/-
Verification of the family-graph front-end: the details-page network
builder (grouped payload path), the flattened-payload relation
classification, the link resolution and interaction handlers of the
force-layout adapter, date formatting, the search-form guard, and the
relation-card sort.  External browser builtins (`Date` parsing,
`encodeURIComponent`, the engine sort) are modelled or taken as
parameters, as noted at each definition.
-/

/-- A person entry as it appears in the grouped family payload
(`familyData.parents` and friends): the network builder reads only its
`id` and `name`. -/
structure PRef where
  id : String
  name : String
deriving DecidableEq, Repr

/-- A node pushed onto `networkData.nodes` by `loadPersonDetails`
(`{id, name, type}`). -/
structure NNode where
  id : String
  name : String
  type : String
deriving DecidableEq, Repr

/-- A link pushed onto `networkData.links` by `loadPersonDetails`
(`{source, target, type}`, endpoints given by id). -/
structure NLink where
  source : String
  target : String
  type : String
deriving DecidableEq, Repr

/-- One `Map.set` step of the JavaScript `Map` used for node
deduplication: setting an existing key overwrites its value in place
(the key keeps the position of its first insertion), while a fresh key
is appended at the end. -/
def jsMapSet (m : List (String × NNode)) (k : String) (v : NNode) :
    List (String × NNode) :=
  if m.any (fun p => p.1 = k) then
    m.map (fun p => if p.1 = k then (k, v) else p)
  else
    m ++ [(k, v)]

/-- `new Map(networkData.nodes.map(node => [node.id, node]))`: insert
every node keyed by its id, in list order. -/
def jsMapOfNodes (l : List NNode) : List (String × NNode) :=
  l.foldl (fun m n => jsMapSet m n.id n) []

/-- `Array.from(new Map(...).values())`: the deduplicated node list, in
the insertion order of the keys. -/
def dedupNodes (l : List NNode) : List NNode :=
  (jsMapOfNodes l).map (fun p => p.2)

/-- Association lookup on the JavaScript-`Map` model (`Map.get`). -/
def alook (m : List (String × NNode)) (k : String) : Option (String × NNode) :=
  m.find? (fun p => p.1 = k)

/-- The nodes pushed by `loadPersonDetails` before deduplication: the
central person (type `self`), then one node per parent, child, spouse
and sibling, in payload order. -/
def buildNodes (eid selfName : String)
    (parents children spouses siblings : List PRef) : List NNode :=
  NNode.mk eid selfName "self" ::
    (parents.map (fun p => NNode.mk p.id p.name "parent")
      ++ children.map (fun c => NNode.mk c.id c.name "child")
      ++ spouses.map (fun sp => NNode.mk sp.id sp.name "spouse")
      ++ siblings.map (fun sb => NNode.mk sb.id sb.name "sibling"))

/-- The links pushed while handling one sibling: one parent→sibling link
typed `parent` per entry of the parents array (each iteration also sets
the `linkedToParent` flag), then, only when the flag was never set, a
direct central→sibling link typed `sibling`. -/
def siblingLinks (eid : String) (parents : List PRef) (sb : PRef) :
    List NLink :=
  let r := parents.foldl
    (fun (acc : List NLink × Bool) p =>
      (acc.1 ++ [NLink.mk p.id sb.id "parent"], true))
    ([], false)
  if r.2 then r.1 else r.1 ++ [NLink.mk eid sb.id "sibling"]

/-- All links pushed by `loadPersonDetails`: parent→self (typed
`parent`), self→child (also typed `parent`), self→spouse (typed
`spouse`), then the per-sibling links. -/
def buildLinks (eid : String)
    (parents children spouses siblings : List PRef) : List NLink :=
  parents.map (fun p => NLink.mk p.id eid "parent")
    ++ children.map (fun c => NLink.mk eid c.id "parent")
    ++ spouses.map (fun sp => NLink.mk eid sp.id "spouse")
    ++ (siblings.map (siblingLinks eid parents)).flatten

/-- A node of the flattened family payload (`familyData.nodes`): the
verified operations read its `id`, `depth`, `name` and `birth_date`;
display-only fields (death date, gender, bio, image) are omitted. -/
structure VNode where
  id : String
  depth : Int
  name : String
  birth_date : Option String
deriving DecidableEq, Repr

/-- A link of the flattened family payload (`familyData.links`),
endpoints given by id. -/
structure VLink where
  source : String
  target : String
  type : String
deriving DecidableEq, Repr

/-- The four relation buckets filled by `displayFamilyRelations`. -/
structure Relations where
  parents : List VNode
  children : List VNode
  spouses : List VNode
  siblings : List VNode
deriving DecidableEq, Repr

/-- `familyData.nodes.find(node => node.depth === 0)`. -/
def findCentral (nodes : List VNode) : Option VNode :=
  nodes.find? (fun n => n.depth = 0)

/-- Processing of one link by the classification loop of
`displayFamilyRelations`: skip a link touching the central person at
neither endpoint; resolve the related endpoint and skip the link when no
node carries that id; otherwise append the related node to the bucket
selected by the link type and direction (`parent` with the central
person as target → parents, `parent` otherwise → children, `spouse` →
spouses, `sibling` → siblings, anything else → no bucket). -/
def classifyStep (c : VNode) (nodes : List VNode) (r : Relations)
    (l : VLink) : Relations :=
  if l.source ≠ c.id ∧ l.target ≠ c.id then r
  else
    match nodes.find? (fun n =>
        n.id = if l.source = c.id then l.target else l.source) with
    | none => r
    | some p =>
      if l.type = "parent" then
        if l.target = c.id then { r with parents := r.parents ++ [p] }
        else { r with children := r.children ++ [p] }
      else if l.type = "spouse" then { r with spouses := r.spouses ++ [p] }
      else if l.type = "sibling" then { r with siblings := r.siblings ++ [p] }
      else r

/-- `displayFamilyRelations`: returns nothing when no depth-0 node
exists (the function returns early), otherwise folds the classification
over all links starting from four empty buckets. -/
def familyRelations (nodes : List VNode) (links : List VLink) :
    Option Relations :=
  (findCentral nodes).map
    (fun c => links.foldl (classifyStep c nodes) (Relations.mk [] [] [] []))

/-- Stated from the spec: a parent-typed link with the central node as
its target classifies the other endpoint (the source) as a parent. -/
def specParents (c : VNode) (nodes : List VNode) (links : List VLink) :
    List VNode :=
  links.filterMap (fun l =>
    if l.type = "parent" ∧ l.target = c.id then
      nodes.find? (fun n => n.id = l.source)
    else none)

/-- Stated from the spec: a parent-typed link with the central node as
its source (and not its target) classifies the other endpoint (the
target) as a child. -/
def specChildren (c : VNode) (nodes : List VNode) (links : List VLink) :
    List VNode :=
  links.filterMap (fun l =>
    if l.type = "parent" ∧ l.source = c.id ∧ ¬l.target = c.id then
      nodes.find? (fun n => n.id = l.target)
    else none)

/-- Stated from the spec: a spouse-typed link touching the central node
classifies the other endpoint as a spouse, regardless of direction. -/
def specSpouses (c : VNode) (nodes : List VNode) (links : List VLink) :
    List VNode :=
  links.filterMap (fun l =>
    if l.type = "spouse" ∧ (l.source = c.id ∨ l.target = c.id) then
      nodes.find? (fun n =>
        n.id = if l.source = c.id then l.target else l.source)
    else none)

/-- Stated from the spec: a sibling-typed link touching the central node
classifies the other endpoint as a sibling, regardless of direction. -/
def specSiblings (c : VNode) (nodes : List VNode) (links : List VLink) :
    List VNode :=
  links.filterMap (fun l =>
    if l.type = "sibling" ∧ (l.source = c.id ∨ l.target = c.id) then
      nodes.find? (fun n =>
        n.id = if l.source = c.id then l.target else l.source)
    else none)

/-- A rendered link after `initializeVisualization` resolved its
endpoints with `nodes.find(...)`: an endpoint is the found node object,
or nothing (JavaScript `undefined`) when no node carries the id. -/
structure OLink where
  source : Option VNode
  target : Option VNode
  type : String
deriving DecidableEq, Repr

/-- `data.links.map(link => ({source: nodes.find(n => n.id ===
link.source), target: nodes.find(n => n.id === link.target), type:
link.type}))`: every payload link is mapped, none is filtered out. -/
def resolveLinks (nodes : List VNode) (links : List VLink) : List OLink :=
  links.map (fun l =>
    OLink.mk (nodes.find? (fun n => n.id = l.source))
      (nodes.find? (fun n => n.id = l.target)) l.type)

/-- A link as the hover handler sees it: both endpoints are already node
objects (the d3 link force replaces ids by node references). -/
structure RLink where
  source : VNode
  target : VNode
  type : String
deriving DecidableEq, Repr

/-- The stroke-opacity assigned to one link while the node with id `dId`
is hovered: `(l.source.id === d.id || l.target.id === d.id) ? 1 : 0.2`. -/
def hoverLinkOpacity (l : RLink) (dId : String) : ℚ :=
  if l.source.id = dId ∨ l.target.id = dId then 1 else 0.2

/-- The stroke-opacity restored to every link on mouseout. -/
def mouseoutLinkOpacity : ℚ := 1

/-- The position written on every simulation tick by the
`visualization.js` adapter: `d.x = Math.max(20, Math.min(width - 20,
d.x))` and the same for `y` with the height. -/
def tickClampViz (width height x y : ℚ) : ℚ × ℚ :=
  (max 20 (min (width - 20) x), max 20 (min (height - 20) y))

/-- The position rendered on every simulation tick by the second
network adapter (`translate(d.x, d.y)`): the raw simulation position,
with no clamping. -/
def tickNet (x y : ℚ) : ℚ × ℚ := (x, y)

/-- The result of a successful JavaScript `new Date(s)` call, as far as
this code observes it: the code only calls `getTime()` (for the
validity check and the comparator subtraction) and `getFullYear()`. -/
structure JSDate where
  year : Nat
  month : Nat
  day : Nat
deriving DecidableEq, Repr

/-- Model of `getTime()` for parsed dates: any encoding strictly
monotone in (year, month, day) is observationally equivalent here,
since the code only compares differences of times with zero. -/
def getTime (d : JSDate) : Int :=
  ((d.year * 500 + d.month * 35 + d.day : Nat) : Int)

/-- Numeric value of a decimal digit character. -/
def digitVal (c : Char) : Nat := c.toNat - 48

/-- Model of the JavaScript `Date` parser (a browser builtin) on the
date shapes this application sees: an ISO `YYYY-MM-DD` date, optionally
followed by a `T...` time part, with a valid month and day, or a bare
`YYYY` year.  Anything else is an invalid date; in particular the
Wikidata form `+1936-00-00T00:00:00Z` is invalid (an expanded year
would need six digits and a sign, and its month is zero). -/
def jsDateParse (s : String) : Option JSDate :=
  match s.data with
  | [y1, y2, y3, y4] =>
    if y1.isDigit ∧ y2.isDigit ∧ y3.isDigit ∧ y4.isDigit then
      some (JSDate.mk
        (digitVal y1 * 1000 + digitVal y2 * 100 + digitVal y3 * 10 + digitVal y4)
        1 1)
    else none
  | y1 :: y2 :: y3 :: y4 :: '-' :: m1 :: m2 :: '-' :: d1 :: d2 :: rest =>
    if (y1.isDigit ∧ y2.isDigit ∧ y3.isDigit ∧ y4.isDigit)
        ∧ (m1.isDigit ∧ m2.isDigit ∧ d1.isDigit ∧ d2.isDigit)
        ∧ (rest = [] ∨ rest.head? = some 'T') then
      if 1 ≤ digitVal m1 * 10 + digitVal m2
          ∧ digitVal m1 * 10 + digitVal m2 ≤ 12
          ∧ 1 ≤ digitVal d1 * 10 + digitVal d2
          ∧ digitVal d1 * 10 + digitVal d2 ≤ 31 then
        some (JSDate.mk
          (digitVal y1 * 1000 + digitVal y2 * 100 + digitVal y3 * 10 + digitVal y4)
          (digitVal m1 * 10 + digitVal m2)
          (digitVal d1 * 10 + digitVal d2))
      else none
    else none
  | _ => none

/-- Scan for the first window of four consecutive digit characters. -/
def yearScan : List Char → Option String
  | c1 :: c2 :: c3 :: c4 :: rest =>
    if c1.isDigit ∧ c2.isDigit ∧ c3.isDigit ∧ c4.isDigit then
      some (String.mk [c1, c2, c3, c4])
    else
      yearScan (c2 :: c3 :: c4 :: rest)
  | _ => none

/-- Model of `dateString.match(/[+-]?(\d{4})/)` restricted to its first
capture group: the group is exactly the first run of four consecutive
digits (an optional leading sign never changes the captured digits). -/
def extractYear (s : String) : Option String := yearScan s.data

/-- The `formatDate` of `visualization.js` (and, up to the placeholder
text and output granularity, of `details.js`): a falsy input yields the
placeholder, an invalid date is returned unchanged, a valid date yields
its year as a string.  The parser for the `Date` builtin is a
parameter; the surrounding try/catch never fires since parsing itself
does not throw. -/
def formatDateViz (parse : String → Option JSDate) :
    Option String → String
  | none => "Unknown"
  | some s =>
    if s = "" then "Unknown"
    else
      match parse s with
      | none => s
      | some d => toString d.year

/-- The `formatDate` of the second network script: a falsy input yields
the empty string; an invalid date falls back to the first four-digit
year extracted from the raw string, or the empty string when there is
none; a valid date yields its year as a string. -/
def formatDateNet (parse : String → Option JSDate) :
    Option String → String
  | none => ""
  | some s =>
    if s = "" then ""
    else
      match parse s with
      | some d => toString d.year
      | none =>
        match extractYear s with
        | some y => y
        | none => ""

/-- Model of JavaScript `String.prototype.trim` (a builtin): strip
leading and trailing whitespace characters. -/
def jsTrim (s : String) : String :=
  String.mk
    ((s.data.dropWhile Char.isWhitespace).reverse.dropWhile
      Char.isWhitespace).reverse

/-- The URL fetched by `performSearch(query, page)`; `enc` stands for
the `encodeURIComponent` builtin. -/
def searchApiUrl (enc : String → String) (query : String) (page : Nat) :
    String :=
  "/api/search?query=" ++ enc query ++ "&page=" ++ toString page

/-- The network requests issued by one submit of the search form: trim
the input, and only when the trimmed query is truthy (a non-empty
string) call `performSearch(query, 1)`, which issues exactly one fetch
of the search API. -/
def submitFetches (enc : String → String) (value : String) : List String :=
  let query := jsTrim value
  if query ≠ "" then [searchApiUrl enc query 1] else []

/-- JavaScript falsiness of `relation.birth_date`: absent or the empty
string. -/
def birthFalsy (n : VNode) : Bool :=
  match n.birth_date with
  | none => true
  | some s => s = ""

/-- `new Date(n.birth_date).getTime()`: a number when the birth date is
present and parses, otherwise NaN (represented as no value). -/
def bTime (parse : String → Option JSDate) (n : VNode) : Option Int :=
  n.birth_date.bind (fun s => (parse s).map getTime)

/-- The sort comparator of `displayRelationSection`: a relation without
a birth date sorts as greater (1), one against a dated relation as
smaller (-1), and two dated relations compare by time difference.  A
NaN difference (either date failed to parse) is mapped to +0, as the
ECMAScript `CompareArrayElements` operation does with every NaN
comparator result. -/
def relCmp (parse : String → Option JSDate) (a b : VNode) : Int :=
  if birthFalsy a then 1
  else if birthFalsy b then -1
  else
    match bTime parse a, bTime parse b with
    | some x, some y => x - y
    | _, _ => 0

/-- The comparator read as a "stays before" test: `a` may stay before
`b` when the comparator is non-positive. -/
def relLe (parse : String → Option JSDate) (a b : VNode) : Bool :=
  relCmp parse a b ≤ 0

/-- Insertion into a sorted list, keeping the inserted (originally
earlier) element first on ties. -/
def sortInsert (le : VNode → VNode → Bool) (x : VNode) :
    List VNode → List VNode
  | [] => [x]
  | y :: ys => if le x y then x :: y :: ys else y :: sortInsert le x ys

/-- Stable insertion sort: a model of `Array.prototype.sort`, which
ECMAScript requires to be a stable sort whenever the comparator is
consistent. -/
def jsStableSort (le : VNode → VNode → Bool) : List VNode → List VNode
  | [] => []
  | x :: xs => sortInsert le x (jsStableSort le xs)

/-- `relations.sort(comparator)` as executed by
`displayRelationSection`. -/
def sortRelations (parse : String → Option JSDate) (rels : List VNode) :
    List VNode :=
  jsStableSort (relLe parse) rels

/-- The sort key a relation card should be ordered by: its parsed birth
time, with relations lacking a birth date keyed last. -/
def okey (parse : String → Option JSDate) (n : VNode) : Option Int :=
  if birthFalsy n then none else bTime parse n

/-- Order on sort keys: a missing key comes after every present key. -/
def okeyLe : Option Int → Option Int → Prop
  | _, none => True
  | none, some _ => False
  | some x, some y => x ≤ y

/-
Helper lemmas about the JavaScript Map model used for node
deduplication.
-/

theorem find?_append_of_none {α : Type} (p : α → Bool) (l1 l2 : List α)
    (h : l1.find? p = none) : (l1 ++ l2).find? p = l2.find? p := by
  induction l1 with
  | nil => simp
  | cons a l ih =>
    cases hpa : p a
    · simp only [List.cons_append, List.find?_cons, hpa] at h ⊢
      exact ih h
    · simp only [List.find?_cons, hpa] at h
      exact absurd h (by simp)

theorem find?_append_last_no {α : Type} (p : α → Bool) (l : List α)
    (a : α) (ha : p a = false) : (l ++ [a]).find? p = l.find? p := by
  induction l with
  | nil => simp [List.find?_cons, ha]
  | cons b l ih =>
    cases hpb : p b
    · simp only [List.cons_append, List.find?_cons, hpb]
      exact ih
    · simp [List.find?_cons, hpb]

theorem find?_congr_mem {α : Type} (l : List α) (p q : α → Bool)
    (h : ∀ a ∈ l, p a = q a) : l.find? p = l.find? q := by
  induction l with
  | nil => rfl
  | cons a l ih =>
    have hpa := h a (by simp)
    cases hq : q a
    · simp only [List.find?_cons, hpa, hq]
      exact ih (fun a ha => h a (by simp [ha]))
    · simp [List.find?_cons, hpa, hq]

theorem find?_overwrite (m : List (String × NNode)) (k : String) (v : NNode)
    (h : m.any (fun p => p.1 = k) = true) :
    (m.map (fun p => if p.1 = k then (k, v) else p)).find?
      (fun p => p.1 = k) = some (k, v) := by
  induction m with
  | nil => simp at h
  | cons p m ih =>
    by_cases hk : p.1 = k
    · simp [List.find?_cons, hk]
    · have h' : m.any (fun p => p.1 = k) = true := by
        simpa [hk] using h
      simpa [List.find?_cons, hk] using ih h'

theorem find?_overwrite_other (m : List (String × NNode)) (k k' : String)
    (v : NNode) (hkk : k' ≠ k) :
    (m.map (fun p => if p.1 = k then (k, v) else p)).find?
      (fun p => p.1 = k') = m.find? (fun p => p.1 = k') := by
  induction m with
  | nil => rfl
  | cons p m ih =>
    rw [List.map_cons, List.find?_cons, List.find?_cons]
    by_cases hk : p.1 = k
    · have h1 : (decide ((if p.1 = k then (k, v) else p).1 = k')) = false := by
        rw [if_pos hk]
        exact decide_eq_false (Ne.symm hkk)
      have h2 : (decide (p.1 = k')) = false := by
        rw [hk]
        exact decide_eq_false (Ne.symm hkk)
      rw [h1, h2]
      exact ih
    · rw [if_neg hk]
      cases hp : decide (p.1 = k')
      · exact ih
      · rfl

theorem alook_jsMapSet_self (m : List (String × NNode)) (k : String)
    (v : NNode) : alook (jsMapSet m k v) k = some (k, v) := by
  unfold alook jsMapSet
  by_cases h : m.any (fun p => p.1 = k) = true
  · rw [if_pos h]
    exact find?_overwrite m k v h
  · rw [if_neg h]
    have hnone : m.find? (fun p => p.1 = k) = none := by
      rw [List.find?_eq_none]
      intro p hp hpk
      exact h (List.any_eq_true.mpr ⟨p, hp, hpk⟩)
    rw [find?_append_of_none _ _ _ hnone]
    simp [List.find?_cons]

theorem alook_jsMapSet_other (m : List (String × NNode)) (k k' : String)
    (v : NNode) (hkk : k' ≠ k) :
    alook (jsMapSet m k v) k' = alook m k' := by
  unfold alook jsMapSet
  by_cases h : m.any (fun p => p.1 = k) = true
  · rw [if_pos h]
    exact find?_overwrite_other m k k' v hkk
  · rw [if_neg h]
    apply find?_append_last_no
    simp
    exact fun hc => hkk hc.symm

theorem getLast?_cons_ne_none {α : Type} (a : α) (t : List α) :
    (a :: t).getLast? ≠ none := by
  induction t generalizing a with
  | nil => simp [List.getLast?]
  | cons b t ih =>
    rw [List.getLast?_cons_cons]
    exact ih b

theorem jsMapSet_keys (m : List (String × NNode)) (k : String) (v : NNode) :
    (jsMapSet m k v).map Prod.fst =
      if m.any (fun p => p.1 = k) then m.map Prod.fst
      else m.map Prod.fst ++ [k] := by
  unfold jsMapSet
  by_cases h : m.any (fun p => p.1 = k) = true
  · rw [if_pos h, if_pos h, List.map_map]
    apply List.map_congr_left
    intro p hp
    by_cases hpk : p.1 = k
    · simp [hpk]
    · simp [hpk]
  · rw [if_neg h, if_neg h, List.map_append]
    rfl

theorem keys_nodup_jsMapSet (m : List (String × NNode)) (k : String)
    (v : NNode) (h : (m.map Prod.fst).Nodup) :
    ((jsMapSet m k v).map Prod.fst).Nodup := by
  rw [jsMapSet_keys]
  by_cases ha : m.any (fun p => p.1 = k) = true
  · rw [if_pos ha]
    exact h
  · rw [if_neg ha]
    have hk : k ∉ m.map Prod.fst := by
      intro hmem
      rcases List.mem_map.mp hmem with ⟨p, hp, hpk⟩
      exact ha (List.any_eq_true.mpr ⟨p, hp, by simp [hpk]⟩)
    simp only [List.nodup_append, List.nodup_cons, List.nodup_nil]
    refine ⟨h, by simp, ?_⟩
    intro a hal har
    rcases List.mem_singleton.mp har with rfl
    exact hk hal

theorem goodMap_jsMapSet (m : List (String × NNode)) (k : String) (v : NNode)
    (hm : ∀ p ∈ m, p.2.id = p.1) (hv : v.id = k) :
    ∀ p ∈ jsMapSet m k v, p.2.id = p.1 := by
  intro p hp
  unfold jsMapSet at hp
  by_cases h : m.any (fun q => q.1 = k) = true
  · rw [if_pos h] at hp
    rcases List.mem_map.mp hp with ⟨q, hq, hfq⟩
    by_cases hqk : q.1 = k
    · rw [if_pos hqk] at hfq
      rw [← hfq]
      exact hv
    · rw [if_neg hqk] at hfq
      rw [← hfq]
      exact hm q hq
  · rw [if_neg h] at hp
    rcases List.mem_append.mp hp with hp | hp
    · exact hm p hp
    · rcases List.mem_singleton.mp hp with rfl
      exact hv

theorem goodMap_foldl (l : List NNode) :
    ∀ (m : List (String × NNode)), (∀ p ∈ m, p.2.id = p.1) →
      ∀ p ∈ l.foldl (fun m n => jsMapSet m n.id n) m, p.2.id = p.1 := by
  induction l with
  | nil => intro m hm; exact hm
  | cons n l ih =>
    intro m hm
    exact ih _ (goodMap_jsMapSet m n.id n hm rfl)

theorem keys_nodup_foldl (l : List NNode) :
    ∀ (m : List (String × NNode)), (m.map Prod.fst).Nodup →
      ((l.foldl (fun m n => jsMapSet m n.id n) m).map Prod.fst).Nodup := by
  induction l with
  | nil => intro m hm; exact hm
  | cons n l ih =>
    intro m hm
    exact ih _ (keys_nodup_jsMapSet m n.id n hm)

theorem alook_foldl_jsMapSet (l : List NNode) :
    ∀ (m : List (String × NNode)) (k : String),
      alook (l.foldl (fun m n => jsMapSet m n.id n) m) k =
        match (l.filter (fun n => n.id = k)).getLast? with
        | some n => some (k, n)
        | none => alook m k := by
  induction l with
  | nil =>
    intro m k
    simp [List.getLast?]
  | cons n l ih =>
    intro m k
    rw [List.foldl_cons, ih]
    by_cases hnk : n.id = k
    · have hcons : (n :: l).filter (fun n => n.id = k) =
          n :: l.filter (fun n => n.id = k) := by
        simp [List.filter_cons, hnk]
      cases hfl : (l.filter (fun n => n.id = k)).getLast? with
      | some n' =>
        rw [hcons]
        cases hfp : l.filter (fun n => n.id = k) with
        | nil =>
          rw [hfp] at hfl
          simp [List.getLast?] at hfl
        | cons a t =>
          rw [hfp] at hfl
          rw [List.getLast?_cons_cons, hfl]
      | none =>
        rw [hcons]
        cases hfp : l.filter (fun n => n.id = k) with
        | cons a t =>
          rw [hfp] at hfl
          exact absurd hfl (getLast?_cons_ne_none a t)
        | nil =>
          have hk : k = n.id := hnk.symm
          subst hk
          rw [alook_jsMapSet_self]
          simp [List.getLast?]
    · have hcons : (n :: l).filter (fun n => n.id = k) =
          l.filter (fun n => n.id = k) := by
        simp [List.filter_cons, hnk]
      rw [hcons]
      cases hfl : (l.filter (fun n => n.id = k)).getLast? with
      | some n' => rfl
      | none =>
        exact alook_jsMapSet_other m n.id k n (fun h => hnk h.symm)

theorem dedupNodes_find? (l : List NNode) (k : String) :
    (dedupNodes l).find? (fun n => n.id = k) =
      (l.filter (fun n => n.id = k)).getLast? := by
  have hchar := alook_foldl_jsMapSet l [] k
  have hg := goodMap_foldl l []
    (by intro p hp; exact absurd hp (List.not_mem_nil p))
  unfold dedupNodes jsMapOfNodes
  rw [List.find?_map]
  have hcongr := find?_congr_mem (l.foldl (fun m n => jsMapSet m n.id n) [])
    ((fun n => decide (n.id = k)) ∘ (fun p : String × NNode => p.2))
    (fun p => decide (p.1 = k))
    (by
      intro p hp
      simp only [Function.comp]
      rw [hg p hp])
  rw [hcongr]
  unfold jsMapOfNodes alook at hchar
  rw [hchar]
  cases hfl : (l.filter (fun n => n.id = k)).getLast? with
  | some n' => rfl
  | none => rfl

theorem dedupNodes_ids_nodup (l : List NNode) :
    ((dedupNodes l).map (fun n => n.id)).Nodup := by
  have hg := goodMap_foldl l []
    (by intro p hp; exact absurd hp (List.not_mem_nil p))
  unfold dedupNodes jsMapOfNodes
  rw [List.map_map]
  have heq : (l.foldl (fun m n => jsMapSet m n.id n) []).map
        ((fun n : NNode => n.id) ∘ (fun p : String × NNode => p.2)) =
      (l.foldl (fun m n => jsMapSet m n.id n) []).map Prod.fst := by
    apply List.map_congr_left
    intro p hp
    simp only [Function.comp]
    rw [hg p hp]
  rw [heq]
  exact keys_nodup_foldl l [] (by simp)

theorem jsMapSet_length_ge (m : List (String × NNode)) (k : String)
    (v : NNode) : m.length ≤ (jsMapSet m k v).length := by
  unfold jsMapSet
  by_cases h : m.any (fun p => p.1 = k) = true
  · rw [if_pos h, List.length_map]
  · rw [if_neg h, List.length_append]
    omega

theorem foldl_jsMapSet_length (l : List NNode) :
    ∀ (m : List (String × NNode)),
      m.length ≤ (l.foldl (fun m n => jsMapSet m n.id n) m).length := by
  induction l with
  | nil => intro m; exact Nat.le_refl _
  | cons n l ih =>
    intro m
    exact Nat.le_trans (jsMapSet_length_ge m n.id n) (ih _)

theorem dedupNodes_cons_length (n : NNode) (l : List NNode) :
    1 ≤ (dedupNodes (n :: l)).length := by
  unfold dedupNodes jsMapOfNodes
  rw [List.length_map, List.foldl_cons]
  have h := foldl_jsMapSet_length l (jsMapSet [] n.id n)
  have h1 : (jsMapSet [] n.id n).length = 1 := rfl
  omega

theorem classify_foldl (c : VNode) (nodes : List VNode) :
    ∀ (links : List VLink) (r : Relations),
      links.foldl (classifyStep c nodes) r =
        Relations.mk (r.parents ++ specParents c nodes links)
          (r.children ++ specChildren c nodes links)
          (r.spouses ++ specSpouses c nodes links)
          (r.siblings ++ specSiblings c nodes links) := by
  intro links
  induction links with
  | nil =>
    intro r
    cases r
    simp [specParents, specChildren, specSpouses, specSiblings]
  | cons l ls ih =>
    intro r
    rw [List.foldl_cons, ih]
    by_cases hA : l.source = c.id ∨ l.target = c.id
    · have hna : ¬(l.source ≠ c.id ∧ l.target ≠ c.id) := by
        intro hcon
        rcases hA with h | h
        · exact hcon.1 h
        · exact hcon.2 h
      by_cases hp : l.type = "parent"
      · by_cases ht : l.target = c.id
        · have hrel : (if l.source = c.id then l.target else l.source) =
              l.source := by
            by_cases hs : l.source = c.id
            · rw [if_pos hs, ht, hs]
            · rw [if_neg hs]
          cases hF : nodes.find? (fun n => n.id = l.source) with
          | none =>
            have hstep : classifyStep c nodes r l = r := by
              unfold classifyStep
              rw [if_neg hna]
              simp only [hrel, hF]
            rw [hstep]
            simp [specParents, specChildren, specSpouses, specSiblings,
              List.filterMap_cons, hp, ht, hF]
          | some pf =>
            have hstep : classifyStep c nodes r l =
                { r with parents := r.parents ++ [pf] } := by
              unfold classifyStep
              rw [if_neg hna]
              simp only [hrel, hF]
              rw [if_pos hp, if_pos ht]
            rw [hstep]
            simp [specParents, specChildren, specSpouses, specSiblings,
              List.filterMap_cons, hp, ht, hF]
        · have hs : l.source = c.id := by
            rcases hA with h | h
            · exact h
            · exact absurd h ht
          have hrel : (if l.source = c.id then l.target else l.source) =
              l.target := if_pos hs
          cases hF : nodes.find? (fun n => n.id = l.target) with
          | none =>
            have hstep : classifyStep c nodes r l = r := by
              unfold classifyStep
              rw [if_neg hna]
              simp only [hrel, hF]
            rw [hstep]
            simp [specParents, specChildren, specSpouses, specSiblings,
              List.filterMap_cons, hp, ht, hs, hF]
          | some pf =>
            have hstep : classifyStep c nodes r l =
                { r with children := r.children ++ [pf] } := by
              unfold classifyStep
              rw [if_neg hna]
              simp only [hrel, hF]
              rw [if_pos hp, if_neg ht]
            rw [hstep]
            simp [specParents, specChildren, specSpouses, specSiblings,
              List.filterMap_cons, hp, ht, hs, hF]
      · by_cases hsp : l.type = "spouse"
        · cases hF : nodes.find? (fun n =>
              n.id = if l.source = c.id then l.target else l.source) with
          | none =>
            have hstep : classifyStep c nodes r l = r := by
              unfold classifyStep
              rw [if_neg hna]
              simp only [hF]
            rw [hstep]
            simp [specParents, specChildren, specSpouses, specSiblings,
              List.filterMap_cons, hp, hsp, hA, hF]
          | some pf =>
            have hstep : classifyStep c nodes r l =
                { r with spouses := r.spouses ++ [pf] } := by
              unfold classifyStep
              rw [if_neg hna]
              simp only [hF]
              rw [if_neg hp, if_pos hsp]
            rw [hstep]
            simp [specParents, specChildren, specSpouses, specSiblings,
              List.filterMap_cons, hp, hsp, hA, hF]
        · by_cases hsb : l.type = "sibling"
          · cases hF : nodes.find? (fun n =>
                n.id = if l.source = c.id then l.target else l.source) with
            | none =>
              have hstep : classifyStep c nodes r l = r := by
                unfold classifyStep
                rw [if_neg hna]
                simp only [hF]
              rw [hstep]
              simp [specParents, specChildren, specSpouses, specSiblings,
                List.filterMap_cons, hp, hsp, hsb, hA, hF]
            | some pf =>
              have hstep : classifyStep c nodes r l =
                  { r with siblings := r.siblings ++ [pf] } := by
                unfold classifyStep
                rw [if_neg hna]
                simp only [hF]
                rw [if_neg hp, if_neg hsp, if_pos hsb]
              rw [hstep]
              simp [specParents, specChildren, specSpouses, specSiblings,
                List.filterMap_cons, hp, hsp, hsb, hA, hF]
          · have hstep : classifyStep c nodes r l = r := by
              unfold classifyStep
              rw [if_neg hna]
              cases hF : nodes.find? (fun n =>
                  n.id = if l.source = c.id then l.target else l.source) with
              | none => simp only [hF]
              | some pf =>
                simp only [hF]
                rw [if_neg hp, if_neg hsp, if_neg hsb]
            rw [hstep]
            simp [specParents, specChildren, specSpouses, specSiblings,
              List.filterMap_cons, hp, hsp, hsb]
    · have hs : ¬l.source = c.id := fun h => hA (Or.inl h)
      have ht : ¬l.target = c.id := fun h => hA (Or.inr h)
      have hstep : classifyStep c nodes r l = r := by
        unfold classifyStep
        rw [if_pos ⟨hs, ht⟩]
      rw [hstep]
      simp [specParents, specChildren, specSpouses, specSiblings,
        List.filterMap_cons, hs, ht, hA]

theorem sortInsert_perm (le : VNode → VNode → Bool) (x : VNode) :
    ∀ (l : List VNode), (sortInsert le x l).Perm (x :: l) := by
  intro l
  induction l with
  | nil => exact List.Perm.refl _
  | cons y ys ih =>
    by_cases h : le x y = true
    · simp only [sortInsert, h, if_pos]
      exact List.Perm.refl _
    · have hb : le x y = false := by
        cases hxy : le x y
        · rfl
        · exact absurd hxy h
      simp only [sortInsert, hb, Bool.false_eq_true, if_false]
      exact List.Perm.trans (ih.cons y) (List.Perm.swap x y ys)

theorem jsStableSort_perm (le : VNode → VNode → Bool) :
    ∀ (l : List VNode), (jsStableSort le l).Perm l := by
  intro l
  induction l with
  | nil => exact List.Perm.refl _
  | cons x xs ih =>
    simp only [jsStableSort]
    exact List.Perm.trans (sortInsert_perm le x (jsStableSort le xs))
      (ih.cons x)

theorem sortInsert_pairwise (le : VNode → VNode → Bool)
    (R : VNode → VNode → Prop) (S : List VNode)
    (Rtr : ∀ a b c, R a b → R b c → R a c)
    (Hle : ∀ a ∈ S, ∀ b ∈ S, le a b = true → R a b)
    (Hgt : ∀ a ∈ S, ∀ b ∈ S, le a b = false → R b a) :
    ∀ (l : List VNode) (x : VNode), x ∈ S → (∀ a ∈ l, a ∈ S) →
      l.Pairwise R → (sortInsert le x l).Pairwise R := by
  intro l
  induction l with
  | nil =>
    intro x hx hl hp
    simp [sortInsert]
  | cons y ys ih =>
    intro x hx hl hp
    rcases List.pairwise_cons.mp hp with ⟨hy, hys⟩
    by_cases h : le x y = true
    · simp only [sortInsert, h, if_pos]
      refine List.pairwise_cons.mpr ⟨?_, hp⟩
      intro b hb
      rcases List.mem_cons.mp hb with hcase | hb
      · have := Hle x hx y (hl y (List.mem_cons_self y ys)) h
        rwa [hcase]
      · exact Rtr x y b (Hle x hx y (hl y (List.mem_cons_self y ys)) h)
          (hy b hb)
    · have hb : le x y = false := by
        cases hxy : le x y
        · rfl
        · exact absurd hxy h
      simp only [sortInsert, hb, Bool.false_eq_true, if_false]
      refine List.pairwise_cons.mpr ⟨?_, ?_⟩
      · intro b hbmem
        have hmem : b = x ∨ b ∈ ys := by
          have := (sortInsert_perm le x ys).mem_iff.mp hbmem
          simpa using this
        rcases hmem with hcase | hb'
        · have := Hgt x hx y (hl y (List.mem_cons_self y ys)) hb
          rwa [hcase]
        · exact hy b hb'
      · exact ih x hx (fun a ha => hl a (List.mem_cons_of_mem y ha)) hys

theorem jsStableSort_pairwise (le : VNode → VNode → Bool)
    (R : VNode → VNode → Prop) (S : List VNode)
    (Rtr : ∀ a b c, R a b → R b c → R a c)
    (Hle : ∀ a ∈ S, ∀ b ∈ S, le a b = true → R a b)
    (Hgt : ∀ a ∈ S, ∀ b ∈ S, le a b = false → R b a) :
    ∀ (l : List VNode), (∀ a ∈ l, a ∈ S) →
      (jsStableSort le l).Pairwise R := by
  intro l
  induction l with
  | nil =>
    intro hl
    simp [jsStableSort]
  | cons x xs ih =>
    intro hl
    simp only [jsStableSort]
    apply sortInsert_pairwise le R S Rtr Hle Hgt
    · exact hl x (List.mem_cons_self x xs)
    · intro a ha
      exact hl a (List.mem_cons_of_mem x
        ((jsStableSort_perm le xs).mem_iff.mp ha))
    · exact ih (fun a ha => hl a (List.mem_cons_of_mem x ha))

theorem okeyLe_trans (a b c : Option Int) (h1 : okeyLe a b)
    (h2 : okeyLe b c) : okeyLe a c := by
  cases a <;> cases b <;> cases c <;>
    simp only [okeyLe] at h1 h2 ⊢ <;> omega

theorem siblingFold (sb : PRef) :
    ∀ (parents : List PRef) (acc : List NLink) (b : Bool),
      parents.foldl (fun (acc : List NLink × Bool) p =>
          (acc.1 ++ [NLink.mk p.id sb.id "parent"], true)) (acc, b) =
        (acc ++ parents.map (fun p => NLink.mk p.id sb.id "parent"),
          b || !parents.isEmpty) := by
  intro parents
  induction parents with
  | nil =>
    intro acc b
    simp
  | cons p ps ih =>
    intro acc b
    rw [List.foldl_cons, ih]
    simp [List.append_assoc]

/-- Claim C1 (corrected): for every grouped family payload, node
deduplication yields a node list with pairwise-distinct ids, and for
every id the node kept is the last-constructed instance carrying that
id — JavaScript `Map.set` overwrites the value stored under an existing
key — not the first-constructed one as claimed. -/
theorem C1_dedup_unique_last_wins (eid selfName : String)
    (parents children spouses siblings : List PRef) (k : String) :
    ((dedupNodes
        (buildNodes eid selfName parents children spouses siblings)).map
      (fun n => n.id)).Nodup ∧
    (dedupNodes
        (buildNodes eid selfName parents children spouses siblings)).find?
      (fun n => n.id = k) =
      ((buildNodes eid selfName parents children spouses siblings).filter
        (fun n => n.id = k)).getLast? :=
  ⟨dedupNodes_ids_nodup _, dedupNodes_find? _ k⟩

/-- Claim C1 (counterexample): with person Q2 listed both as a spouse
and as a sibling, the first-constructed node for id Q2 is the
spouse-typed one, but deduplication keeps the sibling-typed
(last-constructed) one — refuting "the node kept is the
first-constructed instance". -/
theorem C1_counterexample :
    (buildNodes "Q1" "Alice" [] [] [PRef.mk "Q2" "Bob"]
        [PRef.mk "Q2" "Bob"]).find? (fun n => n.id = "Q2") =
      some (NNode.mk "Q2" "Bob" "spouse") ∧
    dedupNodes (buildNodes "Q1" "Alice" [] [] [PRef.mk "Q2" "Bob"]
        [PRef.mk "Q2" "Bob"]) =
      [NNode.mk "Q1" "Alice" "self", NNode.mk "Q2" "Bob" "sibling"] := by
  exact ⟨by decide, by decide⟩

/-- Claim C2 (confirmed): for every sibling of a grouped payload, with
k ≥ 1 known parents the builder synthesizes exactly the k parent-typed
links parent→sibling (one per known parent) and no sibling-typed link,
and with zero known parents it synthesizes exactly the one direct
central→sibling link typed `sibling`, so no sibling is left unlinked. -/
theorem C2_sibling_links (eid : String) (parents : List PRef) (sb : PRef) :
    (parents ≠ [] →
      siblingLinks eid parents sb =
        parents.map (fun p => NLink.mk p.id sb.id "parent") ∧
      (siblingLinks eid parents sb).length = parents.length ∧
      (siblingLinks eid parents sb).filter
        (fun l => l.type = "sibling") = []) ∧
    (parents = [] →
      siblingLinks eid parents sb = [NLink.mk eid sb.id "sibling"]) := by
  constructor
  · intro hne
    have hempty : parents.isEmpty = false := by
      cases parents with
      | nil => exact absurd rfl hne
      | cons p ps => rfl
    have heq : siblingLinks eid parents sb =
        parents.map (fun p => NLink.mk p.id sb.id "parent") := by
      unfold siblingLinks
      rw [siblingFold sb parents [] false]
      simp [hempty]
    refine ⟨heq, ?_, ?_⟩
    · rw [heq]
      simp
    · rw [heq]
      induction parents with
      | nil => rfl
      | cons p ps ih =>
        simp only [List.map_cons, List.filter_cons]
        simp [ih]
  · intro hnil
    subst hnil
    rfl

/-- Witness for C2 at concrete payloads: two known parents give exactly
the two parent→sibling links, and no known parent gives exactly the one
direct sibling link. -/
theorem C2_sibling_links_witness :
    siblingLinks "Q0" [PRef.mk "P1" "Ma", PRef.mk "P2" "Pa"]
        (PRef.mk "S1" "Sis") =
      [NLink.mk "P1" "S1" "parent", NLink.mk "P2" "S1" "parent"] ∧
    siblingLinks "Q0" [] (PRef.mk "S1" "Sis") =
      [NLink.mk "Q0" "S1" "sibling"] :=
  ⟨((C2_sibling_links "Q0" [PRef.mk "P1" "Ma", PRef.mk "P2" "Pa"]
      (PRef.mk "S1" "Sis")).1 (by decide)).1,
    (C2_sibling_links "Q0" [] (PRef.mk "S1" "Sis")).2 rfl⟩

/-- Claim C3 (confirmed): with a central (depth-0) node, the four
relation buckets computed by the classification pass are exactly the
buckets the spec describes — a parent-typed link with the central node
as target adds the source node as a parent, a parent-typed link with
the central node as source adds the target node as a child, spouse- and
sibling-typed links touching the central node add the other endpoint
regardless of direction — and a link touching the central node at
neither endpoint contributes to no bucket. -/
theorem C3_relation_classification (nodes : List VNode) (links : List VLink)
    (c : VNode) (hc : findCentral nodes = some c) :
    familyRelations nodes links =
      some (Relations.mk (specParents c nodes links)
        (specChildren c nodes links) (specSpouses c nodes links)
        (specSiblings c nodes links)) ∧
    ∀ (l : VLink) (r : Relations), ¬(l.source = c.id ∨ l.target = c.id) →
      classifyStep c nodes r l = r := by
  constructor
  · unfold familyRelations
    rw [hc]
    simp only [Option.map_some']
    rw [classify_foldl c nodes links (Relations.mk [] [] [] [])]
    simp
  · intro l r hn
    unfold classifyStep
    exact if_pos ⟨fun h => hn (Or.inl h), fun h => hn (Or.inr h)⟩

/-- Witness for C3 at a concrete flattened payload with one parent
link. -/
theorem C3_relation_classification_witness :
    findCentral [VNode.mk "C" 0 "Carol" none, VNode.mk "P" 1 "Pat" none] =
      some (VNode.mk "C" 0 "Carol" none) ∧
    familyRelations
        [VNode.mk "C" 0 "Carol" none, VNode.mk "P" 1 "Pat" none]
        [VLink.mk "P" "C" "parent"] =
      some (Relations.mk
        (specParents (VNode.mk "C" 0 "Carol" none)
          [VNode.mk "C" 0 "Carol" none, VNode.mk "P" 1 "Pat" none]
          [VLink.mk "P" "C" "parent"])
        (specChildren (VNode.mk "C" 0 "Carol" none)
          [VNode.mk "C" 0 "Carol" none, VNode.mk "P" 1 "Pat" none]
          [VLink.mk "P" "C" "parent"])
        (specSpouses (VNode.mk "C" 0 "Carol" none)
          [VNode.mk "C" 0 "Carol" none, VNode.mk "P" 1 "Pat" none]
          [VLink.mk "P" "C" "parent"])
        (specSiblings (VNode.mk "C" 0 "Carol" none)
          [VNode.mk "C" 0 "Carol" none, VNode.mk "P" 1 "Pat" none]
          [VLink.mk "P" "C" "parent"])) :=
  ⟨by decide,
    (C3_relation_classification
      [VNode.mk "C" 0 "Carol" none, VNode.mk "P" 1 "Pat" none]
      [VLink.mk "P" "C" "parent"]
      (VNode.mk "C" 0 "Carol" none) (by decide)).1⟩

/-- Claim C4 (corrected): every payload link appears in the rendered
link list — the endpoint resolution maps links one-to-one, dropping
nothing and raising nothing — with each endpoint replaced by the found
node object.  A link referencing an id with no matching node is kept
with an unresolved (undefined) endpoint rather than dropped.  Silent
dropping of unresolved references happens only in the
relation-classification pass of the details page, which skips a link
whose related endpoint resolves to no node. -/
theorem C4_links_resolved_not_dropped (nodes : List VNode)
    (links : List VLink) :
    (resolveLinks nodes links).length = links.length ∧
    (∀ l ∈ links,
      OLink.mk (nodes.find? (fun n => n.id = l.source))
        (nodes.find? (fun n => n.id = l.target)) l.type ∈
        resolveLinks nodes links) ∧
    (∀ (c : VNode) (r : Relations) (l : VLink),
      nodes.find? (fun n =>
        n.id = if l.source = c.id then l.target else l.source) = none →
      classifyStep c nodes r l = r) := by
  refine ⟨by simp [resolveLinks], ?_, ?_⟩
  · intro l hl
    exact List.mem_map_of_mem _ hl
  · intro c r l hF
    unfold classifyStep
    by_cases hA : l.source ≠ c.id ∧ l.target ≠ c.id
    · rw [if_pos hA]
    · rw [if_neg hA]
      simp only [hF]

/-- Claim C4 (counterexample): a payload with a single depth-0 node A
and one link A→B, where B matches no node, yields a rendered link list
that still contains that link — with an unresolved target — rather than
dropping it. -/
theorem C4_counterexample :
    resolveLinks [VNode.mk "A" 0 "Ann" none] [VLink.mk "A" "B" "parent"] =
      [OLink.mk (some (VNode.mk "A" 0 "Ann" none)) none "parent"] ∧
    (resolveLinks [VNode.mk "A" 0 "Ann" none]
        [VLink.mk "A" "B" "parent"]).length = 1 := by
  exact ⟨by decide, by decide⟩

/-- Witness for C4 at the same concrete payload. -/
theorem C4_links_resolved_not_dropped_witness :
    (VLink.mk "A" "B" "parent") ∈ [VLink.mk "A" "B" "parent"] ∧
    OLink.mk
        ([VNode.mk "A" 0 "Ann" none].find?
          (fun n => n.id = (VLink.mk "A" "B" "parent").source))
        ([VNode.mk "A" 0 "Ann" none].find?
          (fun n => n.id = (VLink.mk "A" "B" "parent").target))
        (VLink.mk "A" "B" "parent").type ∈
      resolveLinks [VNode.mk "A" 0 "Ann" none]
        [VLink.mk "A" "B" "parent"] :=
  ⟨by decide,
    (C4_links_resolved_not_dropped [VNode.mk "A" 0 "Ann" none]
      [VLink.mk "A" "B" "parent"]).2.1 (VLink.mk "A" "B" "parent")
      (by decide)⟩

/-- Claim C5 (confirmed): building from a grouped payload of N parents,
M children, P spouses and S siblings yields exactly 1 + N + M + P + S
nodes before deduplication, and at least one node (the self node is
always pushed first) after deduplication. -/
theorem C5_node_counts (eid selfName : String)
    (parents children spouses siblings : List PRef) :
    (buildNodes eid selfName parents children spouses siblings).length =
      1 + parents.length + children.length + spouses.length
        + siblings.length ∧
    1 ≤ (dedupNodes
        (buildNodes eid selfName parents children spouses siblings)).length := by
  constructor
  · simp [buildNodes]
    omega
  · exact dedupNodes_cons_length _ _

/-- Claim C6 (corrected): date formatting is total (these are total
functions; the try/catch never fires) and a falsy input yields each
formatter's placeholder ("Unknown", respectively the empty string).
An unparseable nonempty string is returned unchanged by the
`visualization.js` formatter; the second network formatter, however,
returns the first four-digit year extracted from the raw string — or
the empty string when none occurs — not the input unchanged. -/
theorem C6_formatDate_total (parse : String → Option JSDate) (s : String) :
    formatDateViz parse none = "Unknown" ∧
    formatDateNet parse none = "" ∧
    (s ≠ "" → parse s = none → formatDateViz parse (some s) = s) ∧
    (s ≠ "" → parse s = none →
      formatDateNet parse (some s) = (extractYear s).getD "") := by
  refine ⟨rfl, rfl, ?_, ?_⟩
  · intro hne hp
    show (if s = "" then "Unknown"
      else
        match parse s with
        | none => s
        | some d => toString d.year) = s
    rw [if_neg hne, hp]
  · intro hne hp
    show (if s = "" then ""
      else
        match parse s with
        | some d => toString d.year
        | none =>
          match extractYear s with
          | some y => y
          | none => "") = (extractYear s).getD ""
    rw [if_neg hne, hp]
    cases hy : extractYear s
    · simp [hy]
    · simp [hy]

/-- Claim C6 (counterexample): the second network formatter applied to
the unparseable Wikidata date form `+1936-00-00T00:00:00Z` returns the
extracted year "1936", not the input string unchanged. -/
theorem C6_counterexample :
    formatDateNet jsDateParse (some "+1936-00-00T00:00:00Z") = "1936" ∧
    "1936" ≠ "+1936-00-00T00:00:00Z" := by
  exact ⟨by decide, by decide⟩

/-- Witness for C6 at a concrete unparseable date string. -/
theorem C6_formatDate_total_witness :
    ("circa-1936" ≠ "") ∧ jsDateParse "circa-1936" = none ∧
    formatDateViz jsDateParse (some "circa-1936") = "circa-1936" ∧
    formatDateNet jsDateParse (some "circa-1936") =
      (extractYear "circa-1936").getD "" :=
  ⟨by decide, by decide,
    (C6_formatDate_total jsDateParse "circa-1936").2.2.1 (by decide)
      (by decide),
    (C6_formatDate_total jsDateParse "circa-1936").2.2.2 (by decide)
      (by decide)⟩

/-- Claim C7 (corrected): the `visualization.js` adapter does clamp the
rendered position into [20, width − 20] × [20, height − 20] on every
tick (whenever the surface is at least 40 wide, respectively 40 high),
but the second network adapter renders the raw simulation position with
no clamping at all, so its nodes can be placed off-canvas. -/
theorem C7_tick_clamping (width height x y : ℚ) :
    (40 ≤ width →
      20 ≤ (tickClampViz width height x y).1 ∧
      (tickClampViz width height x y).1 ≤ width - 20) ∧
    (40 ≤ height →
      20 ≤ (tickClampViz width height x y).2 ∧
      (tickClampViz width height x y).2 ≤ height - 20) ∧
    tickNet x y = (x, y) := by
  refine ⟨?_, ?_, rfl⟩
  · intro hw
    refine ⟨le_max_left _ _, ?_⟩
    apply max_le
    · linarith
    · exact min_le_left _ _
  · intro hh
    refine ⟨le_max_left _ _, ?_⟩
    apply max_le
    · linarith
    · exact min_le_left _ _

/-- Claim C7 (counterexample): the second network adapter renders a
node whose simulation position is x = −100 at x = −100, below the
20-pixel margin of any display surface. -/
theorem C7_counterexample :
    tickNet (-100) 300 = (-100, 300) ∧ ¬((20 : ℚ) ≤ -100) :=
  ⟨rfl, by norm_num⟩

/-- Witness for C7 on an 800 × 600 surface with an off-canvas
simulation position. -/
theorem C7_tick_clamping_witness :
    ((40 : ℚ) ≤ 800) ∧
    (20 ≤ (tickClampViz 800 600 (-100) 900).1 ∧
      (tickClampViz 800 600 (-100) 900).1 ≤ 800 - 20) :=
  ⟨by norm_num, (C7_tick_clamping 800 600 (-100) 900).1 (by norm_num)⟩

/-- Claim C8 (confirmed): while node d is hovered a link has
stroke-opacity 1 exactly when d is one of its two endpoints, every link
not touching d gets opacity strictly below 1 (0.2), and mouseout
restores opacity 1 on every link. -/
theorem C8_hover_opacity (l : RLink) (dId : String) :
    (hoverLinkOpacity l dId = 1 ↔
      (l.source.id = dId ∨ l.target.id = dId)) ∧
    (hoverLinkOpacity l dId < 1 ↔
      ¬(l.source.id = dId ∨ l.target.id = dId)) ∧
    mouseoutLinkOpacity = 1 := by
  unfold hoverLinkOpacity mouseoutLinkOpacity
  by_cases h : l.source.id = dId ∨ l.target.id = dId
  · rw [if_pos h]
    refine ⟨⟨fun _ => h, fun _ => rfl⟩, ?_, rfl⟩
    constructor
    · intro hlt
      exact absurd hlt (lt_irrefl 1)
    · intro hn
      exact absurd h hn
  · rw [if_neg h]
    refine ⟨?_, ?_, rfl⟩
    · constructor
      · intro he
        exfalso
        norm_num at he
      · intro hcon
        exact absurd hcon h
    · constructor
      · intro _
        exact h
      · intro _
        norm_num

/-- Claim C9 (confirmed): a submitted query whose whitespace-trimmed
value is empty never issues a search request — the handler guard fails
and nothing is fetched. -/
theorem C9_empty_query_no_fetch (enc : String → String) (value : String)
    (h : jsTrim value = "") : submitFetches enc value = [] := by
  unfold submitFetches
  simp [h]

/-- Witness for C9 on a whitespace-only input. -/
theorem C9_empty_query_no_fetch_witness :
    jsTrim "   " = "" ∧ submitFetches (fun s => s) "   " = [] :=
  ⟨by decide, C9_empty_query_no_fetch (fun s => s) "   " (by decide)⟩

theorem okeyLe_none (z : Option Int) : okeyLe z none := by
  cases z
  · trivial
  · trivial

/-- Claim C10 (corrected): the sorted relation list is a permutation of
the input; every relation without a birth date is placed after all
relations that have one; and, provided every present birth date
parses, the list is in ascending order of parsed birth time.  The
proviso is needed: an unparseable birth date makes the comparator
return NaN, which the sort treats as +0 (equal to everything), so
ascending order among parsed dates can then be violated — see the
counterexample. -/
theorem C10_sort_order (parse : String → Option JSDate)
    (rels : List VNode) :
    (sortRelations parse rels).Perm rels ∧
    (sortRelations parse rels).Pairwise
      (fun x y => birthFalsy x = true → birthFalsy y = true) ∧
    ((∀ n ∈ rels, birthFalsy n = false → (bTime parse n).isSome) →
      (sortRelations parse rels).Pairwise
        (fun x y => okeyLe (okey parse x) (okey parse y))) := by
  refine ⟨jsStableSort_perm _ rels, ?_, ?_⟩
  · unfold sortRelations
    apply jsStableSort_pairwise (relLe parse)
      (fun x y => birthFalsy x = true → birthFalsy y = true) rels
    · intro a b c h1 h2 hfa
      exact h2 (h1 hfa)
    · intro a ha b hb hle hfa
      exfalso
      unfold relLe relCmp at hle
      rw [if_pos hfa] at hle
      exact absurd hle (by decide)
    · intro a ha b hb hle hfb
      cases hfa : birthFalsy a
      · exfalso
        unfold relLe relCmp at hle
        rw [if_neg (by simp [hfa]), if_pos hfb] at hle
        exact absurd hle (by decide)
      · rfl
    · intro a ha
      exact ha
  · intro Hp
    unfold sortRelations
    apply jsStableSort_pairwise (relLe parse)
      (fun x y => okeyLe (okey parse x) (okey parse y)) rels
    · intro a b c h1 h2
      exact okeyLe_trans _ _ _ h1 h2
    · intro a ha b hb hle
      cases hfa : birthFalsy a
      · cases hfb : birthFalsy b
        · rcases Option.isSome_iff_exists.mp (Hp a ha hfa) with ⟨ta, hta⟩
          rcases Option.isSome_iff_exists.mp (Hp b hb hfb) with ⟨tb, htb⟩
          unfold relLe relCmp at hle
          rw [if_neg (by simp [hfa]), if_neg (by simp [hfb]),
            hta, htb] at hle
          have hsub : ta - tb ≤ 0 := of_decide_eq_true hle
          unfold okey
          rw [if_neg (by simp [hfa]), if_neg (by simp [hfb]), hta, htb]
          show ta ≤ tb
          omega
        · unfold okey
          rw [if_pos hfb]
          exact okeyLe_none _
      · exfalso
        unfold relLe relCmp at hle
        rw [if_pos hfa] at hle
        exact absurd hle (by decide)
    · intro a ha b hb hle
      cases hfa : birthFalsy a
      · cases hfb : birthFalsy b
        · rcases Option.isSome_iff_exists.mp (Hp a ha hfa) with ⟨ta, hta⟩
          rcases Option.isSome_iff_exists.mp (Hp b hb hfb) with ⟨tb, htb⟩
          unfold relLe relCmp at hle
          rw [if_neg (by simp [hfa]), if_neg (by simp [hfb]),
            hta, htb] at hle
          have hsub : ¬(ta - tb ≤ 0) := of_decide_eq_false hle
          unfold okey
          rw [if_neg (by simp [hfb]), if_neg (by simp [hfa]), htb, hta]
          show tb ≤ ta
          omega
        · exfalso
          unfold relLe relCmp at hle
          rw [if_neg (by simp [hfa]), if_pos hfb] at hle
          exact absurd hle (by decide)
      · unfold okey
        rw [if_pos hfa]
        exact okeyLe_none _
    · intro a ha
      exact ha

/-- Claim C10 (counterexample): with an unparseable birth date in the
middle, the comparator returns NaN (treated as +0) against both
neighbours, the stable sort leaves the list unchanged, and a relation
born 2000 stays placed before one born 1990 — the output is not in
ascending order of parsed birth date. -/
theorem C10_counterexample :
    sortRelations jsDateParse
        [VNode.mk "A" 1 "Ada" (some "2000-01-01"),
          VNode.mk "G" 1 "Gus" (some "+1936-00-00T00:00:00Z"),
          VNode.mk "B" 1 "Bea" (some "1990-01-01")] =
      [VNode.mk "A" 1 "Ada" (some "2000-01-01"),
        VNode.mk "G" 1 "Gus" (some "+1936-00-00T00:00:00Z"),
        VNode.mk "B" 1 "Bea" (some "1990-01-01")] ∧
    bTime jsDateParse (VNode.mk "A" 1 "Ada" (some "2000-01-01")) =
      some 1000036 ∧
    bTime jsDateParse (VNode.mk "B" 1 "Bea" (some "1990-01-01")) =
      some 995036 ∧
    bTime jsDateParse
      (VNode.mk "G" 1 "Gus" (some "+1936-00-00T00:00:00Z")) = none ∧
    (995036 : Int) < 1000036 := by
  exact ⟨by decide, by decide, by decide, by decide, by decide⟩

/-- Witness for C10 on a concrete payload whose present birth dates all
parse. -/
theorem C10_sort_order_witness :
    (∀ n ∈ [VNode.mk "B" 1 "Bea" (some "1990-01-01"),
        VNode.mk "N" 1 "Nan" none,
        VNode.mk "A" 1 "Ada" (some "2000-01-01")],
      birthFalsy n = false → (bTime jsDateParse n).isSome) ∧
    (sortRelations jsDateParse
        [VNode.mk "B" 1 "Bea" (some "1990-01-01"),
          VNode.mk "N" 1 "Nan" none,
          VNode.mk "A" 1 "Ada" (some "2000-01-01")]).Pairwise
      (fun x y => okeyLe (okey jsDateParse x) (okey jsDateParse y)) :=
  ⟨by decide,
    (C10_sort_order jsDateParse
      [VNode.mk "B" 1 "Bea" (some "1990-01-01"),
        VNode.mk "N" 1 "Nan" none,
        VNode.mk "A" 1 "Ada" (some "2000-01-01")]).2.2 (by decide)⟩
